import Mathlib

/-
  Verification of the arfarf malware scanner (src/arfarf.go, with the
  variant in src/unnamed/part_000).

  The program loads MD5 digest strings from hash-list files into a set
  (`malwareHashes`), then recursively walks a directory: regular files are
  hashed and compared against the set, files whose lowered path ends in
  ".zip" are extracted to a scratch directory which is scanned recursively.

  Shallow embedding choices:
  - File contents and the MD5 compression function are not modelled; a
    file node carries the *result* of computeMD5 (an `Except` value), and
    the hex-encoding step of computeMD5 (`hex.EncodeToString`) is modelled
    over the abstract digest bytes.
  - The filesystem seen by `filepath.Walk` is a tree of `Node`s.  Whether a
    file's bytes form a well-formed zip archive is part of the node
    (constructor `zipFile` vs `plainFile`); whether extraction is
    *attempted* is decided by the walker from the file name, as in the
    source.
  - Console output is modelled as a list of `Event`s, one per Printf of
    the source; the walk callback's return value and `filepath.Walk`'s
    error result are modelled explicitly so that the "Scan error" branch
    of scanDirectory is representable.
-/

namespace Arfarf

/-- Model of Go `unicode.IsSpace` (the White_Space property), used by
`strings.TrimSpace`. -/
def goIsSpace (c : Char) : Bool :=
  c == ' ' || c == '\t' || c == '\n' || c == Char.ofNat 11 || c == Char.ofNat 12 ||
  c == '\r' || c == Char.ofNat 0x85 || c == Char.ofNat 0xA0 || c == Char.ofNat 0x1680 ||
  (Char.ofNat 0x2000 ≤ c && c ≤ Char.ofNat 0x200A) ||
  c == Char.ofNat 0x2028 || c == Char.ofNat 0x2029 || c == Char.ofNat 0x202F ||
  c == Char.ofNat 0x205F || c == Char.ofNat 0x3000

/-- Model of Go `strings.TrimSpace`: drop leading and trailing white space. -/
def trimSpace (s : String) : String :=
  String.mk (((s.data.dropWhile goIsSpace).reverse.dropWhile goIsSpace).reverse)

/-- Model of Go `strings.ToLower` (rune-wise lowering; ASCII-faithful). -/
def goToLower (s : String) : String :=
  String.mk (s.data.map Char.toLower)

/-- Model of Go `strings.HasSuffix`. -/
def hasSuffixStr (s suf : String) : Bool :=
  suf.data.isSuffixOf s.data

/-- The walker's archive test: `strings.HasSuffix(strings.ToLower(filePath), ".zip")`
(src/arfarf.go line 145). -/
def zipSuffix (s : String) : Bool :=
  hasSuffixStr (goToLower s) ".zip"

/-- The loader's hash-list-file test:
`strings.HasSuffix(strings.ToLower(f.Name()), ".md5")` (src/arfarf.go line 28). -/
def md5Suffix (s : String) : Bool :=
  hasSuffixStr (goToLower s) ".md5"

/-- Go `encoding/hex` digit table `"0123456789abcdef"`. -/
def hexTable : List Char :=
  "0123456789abcdef".data

/-- Hex encoding of one byte: `hextable[b>>4]` then `hextable[b&0x0f]`. -/
def hexEncodeByte (b : Nat) : List Char :=
  [hexTable.getD (b / 16) 'x', hexTable.getD (b % 16) 'x']

/-- Model of Go `hex.EncodeToString` over a byte sequence, as used by
computeMD5 on the 16-byte MD5 sum (src/arfarf.go line 71). -/
def hexEncodeToString (bs : List Nat) : String :=
  String.mk ((bs.map hexEncodeByte).flatten)

/-- A character of a normalized lowercase-hexadecimal digest. -/
def isLowerHexChar (c : Char) : Bool :=
  ('0' ≤ c && c ≤ '9') || ('a' ≤ c && c ≤ 'f')

/-- A string entirely in normalized lowercase-hexadecimal form. -/
def isLowerHexStr (s : String) : Bool :=
  s.data.all isLowerHexChar

/-- Model of `loadHashesFromFile` (src/arfarf.go lines 41-57): for each
line of the file, trim surrounding white space and insert it into the set
when its length (`len`, i.e. its UTF-8 byte length) is exactly 32.  The
file's lines are given already split, as `bufio.Scanner` yields them. -/
def loadHashesFromFile (lines : List String) (hs : Finset String) : Finset String :=
  lines.foldl (fun acc l =>
    let line := trimSpace l
    if line.utf8ByteSize = 32 then insert line acc else acc) hs

/-- A hash-list directory entry as the loader sees it: a name, and either
the lines of the file or the error opening it. -/
inductive HashFile where
  | unreadableHF (name err : String)
  | readableHF (name : String) (lines : List String)

/-- Model of `loadHashesFromDir` (src/arfarf.go lines 21-38): if the
directory listing itself failed, return that error; otherwise fold every
entry whose lowered name ends in ".md5" into the set (an entry that cannot
be opened only produces a warning and leaves the set unchanged). -/
def loadHashesFromDir : Except String (List HashFile) → Except String (Finset String)
  | Except.error e => Except.error e
  | Except.ok files => Except.ok (files.foldl (fun acc f =>
      match f with
      | HashFile.readableHF n lines =>
          if md5Suffix n then loadHashesFromFile lines acc else acc
      | HashFile.unreadableHF _ _ => acc) ∅)

/-- One console line of the program, one constructor per Printf. -/
inductive Event where
  | accessErr (path err : String)
  | zipDetected (path : String)
  | extractErr (path err : String)
  | unreadable (path err : String)
  | flagged (path : String)
  | flaggedNamed (path name : String)
  | cleanOk (path : String)
  | scanErr (err : String)
  | fatalLoadErr (err : String)
  | hashCount (n : Nat)
deriving DecidableEq, Repr

/-- A filesystem tree as seen by `filepath.Walk`.  `broken` is an entry
whose traversal fails (the callback receives a non-nil err); `plainFile`
is a regular file whose bytes are not a well-formed zip archive (the field
records the error `extractZip` would return); `zipFile` is a regular file
whose bytes extract to the given entries.  `digest` is the result of
`computeMD5` on the file. -/
inductive Node where
  | broken (name err : String)
  | dir (name : String) (children : List Node)
  | plainFile (name : String) (digest : Except String String) (extractFail : String)
  | zipFile (name : String) (digest : Except String String) (entries : List Node)

/-- Model of `scanFile` (src/arfarf.go lines 75-86): a hashing failure
prints "Could not hash" and returns; otherwise membership of the digest in
the set decides between "Malware found" and "Clean". -/
def scanFile (hs : Finset String) (path : String) (res : Except String String) : List Event :=
  match res with
  | Except.error e => [Event.unreadable path e]
  | Except.ok d => if d ∈ hs then [Event.flagged path] else [Event.cleanOk path]

/-- Model of `scanFile` of src/unnamed/part_000 (lines 35-48): the hashes
live in a name-to-digest map and the first matching pair is reported with
its name; with no match the file is Clean.  The map's pairs are given as a
list (Go map iteration order is arbitrary; the list fixes one order). -/
def scanFileNamed (pairs : List (String × String)) (path : String)
    (res : Except String String) : List Event :=
  match res with
  | Except.error e => [Event.unreadable path e]
  | Except.ok d =>
      match pairs.find? (fun p => p.2 == d) with
      | some p => [Event.flaggedNamed path p.1]
      | none => [Event.cleanOk path]

/-- The trailing branch of scanDirectory (src/arfarf.go lines 160-162):
a non-nil result of `filepath.Walk` prints "Scan error". -/
def scanErrEvents : Option String → List Event
  | some e => [Event.scanErr e]
  | none => []

mutual

/-- The walk callback of scanDirectory (src/arfarf.go lines 136-158)
applied to one tree node, together with the traversal of its descendants:
returns the printed events and the value the walk produced for this
subtree (the first non-nil callback return, as `filepath.Walk` aborts on
it).  The ".zip" branch inlines the recursive `scanDirectory` call on the
scratch directory (its walk plus its own "Scan error" branch). -/
def walkNode (hs : Finset String) : Node → List Event × Option String
  | Node.broken name err => ([Event.accessErr name err], none)
  | Node.dir _ children => walkList hs children
  | Node.plainFile name d eErr =>
      if zipSuffix name then
        ([Event.zipDetected name, Event.extractErr name eErr], none)
      else
        (scanFile hs name d, none)
  | Node.zipFile name d entries =>
      if zipSuffix name then
        let r := walkList hs entries
        (Event.zipDetected name :: (r.1 ++ scanErrEvents r.2), none)
      else
        (scanFile hs name d, none)

/-- Traversal of a list of sibling entries, aborting at the first non-nil
callback result as `filepath.Walk` does. -/
def walkList (hs : Finset String) : List Node → List Event × Option String
  | [] => ([], none)
  | n :: rest =>
      let r := walkNode hs n
      match r.2 with
      | some e => (r.1, some e)
      | none =>
          let r2 := walkList hs rest
          (r.1 ++ r2.1, r2.2)

end

/-- Model of `scanDirectory` (src/arfarf.go lines 135-163): walk the root,
then print "Scan error" if the walk returned a non-nil error. -/
def scanDirectory (hs : Finset String) (root : Node) : List Event :=
  let r := walkNode hs root
  r.1 ++ scanErrEvents r.2

/-- Model of `main` (src/arfarf.go lines 166-188), restricted to its
observable events: a failure of loadHashesFromDir prints "Failed to load
hash directory" and returns before any scanning; otherwise the hash count
is printed and the scan directory is walked. -/
def mainRun (listing : Except String (List HashFile)) (root : Node) : List Event :=
  match loadHashesFromDir listing with
  | Except.error e => [Event.fatalLoadErr e]
  | Except.ok hs => Event.hashCount hs.card :: scanDirectory hs root

/-- A file with digest `d`, wrapped in `n` levels of zip archives. -/
def nestedZip (d : String) : Nat → Node
  | 0 => Node.plainFile "payload.txt" (Except.ok d) "zip: not a valid zip file"
  | n + 1 => Node.zipFile "inner.zip" (Except.ok "feedfeedfeedfeedfeedfeedfeedfeed") [nestedZip d n]

/-! ### Helper lemmas about the walk -/

mutual

/-- The walk callback returns nil on every node, so the walk's error
result for a single subtree is always `none`. -/
theorem walkNode_snd (hs : Finset String) : (n : Node) → (walkNode hs n).2 = none
  | Node.broken _ _ => by simp [walkNode]
  | Node.dir _ children => by simpa [walkNode] using walkList_snd hs children
  | Node.plainFile name d eErr => by
      by_cases h : zipSuffix name <;> simp [walkNode, h, scanFile]
  | Node.zipFile name d entries => by
      by_cases h : zipSuffix name <;> simp [walkNode, h, scanFile]

/-- The walk's error result for a list of siblings is always `none`. -/
theorem walkList_snd (hs : Finset String) : (l : List Node) → (walkList hs l).2 = none
  | [] => by simp [walkList]
  | n :: rest => by
      have h1 := walkNode_snd hs n
      have h2 := walkList_snd hs rest
      simp [walkList, h1, h2]

end

/-- Sibling traversal prepends the head node's events. -/
theorem walkList_cons_fst (hs : Finset String) (n : Node) (rest : List Node) :
    (walkList hs (n :: rest)).1 = (walkNode hs n).1 ++ (walkList hs rest).1 := by
  have h1 := walkNode_snd hs n
  simp [walkList, h1]

/-- Sibling traversal distributes over list append. -/
theorem walkList_append_fst (hs : Finset String) (xs ys : List Node) :
    (walkList hs (xs ++ ys)).1 = (walkList hs xs).1 ++ (walkList hs ys).1 := by
  induction xs with
  | nil => simp [walkList]
  | cons n rest ih => simp [walkList_cons_fst, ih]

/-- scanFile never prints a "Scan error" line. -/
theorem scanFile_no_scanErr (hs : Finset String) (p : String) (r : Except String String)
    (e : String) : Event.scanErr e ∉ scanFile hs p r := by
  cases r with
  | error err => simp [scanFile]
  | ok d => by_cases h : d ∈ hs <;> simp [scanFile, h]

mutual

/-- No "Scan error" line is ever printed while walking a node. -/
theorem walkNode_no_scanErr (hs : Finset String) :
    (n : Node) → ∀ e, Event.scanErr e ∉ (walkNode hs n).1
  | Node.broken _ _ => by simp [walkNode]
  | Node.dir _ children => by simpa [walkNode] using walkList_no_scanErr hs children
  | Node.plainFile name d eErr => by
      intro e
      by_cases h : zipSuffix name
      · simp [walkNode, h]
      · simpa [walkNode, h] using scanFile_no_scanErr hs name d e
  | Node.zipFile name d entries => by
      intro e
      by_cases h : zipSuffix name
      · have h2 := walkList_snd hs entries
        have h3 := walkList_no_scanErr hs entries e
        simp [walkNode, h, h2, scanErrEvents]
        exact fun hc => h3 hc
      · simpa [walkNode, h] using scanFile_no_scanErr hs name d e

/-- No "Scan error" line is ever printed while walking a sibling list. -/
theorem walkList_no_scanErr (hs : Finset String) :
    (l : List Node) → ∀ e, Event.scanErr e ∉ (walkList hs l).1
  | [] => by simp [walkList]
  | n :: rest => by
      intro e
      have h1 := walkNode_no_scanErr hs n e
      have h2 := walkList_no_scanErr hs rest e
      rw [walkList_cons_fst]
      simp only [List.mem_append]
      exact fun hc => hc.elim h1 h2

end

/-- walkNode on a file with the archive suffix whose bytes do not form a
zip archive: "ZIP detected" then the extraction error, walk continues. -/
theorem walkNode_plain_zipname (hs : Finset String) (name : String)
    (d : Except String String) (eErr : String) (h : zipSuffix name = true) :
    walkNode hs (Node.plainFile name d eErr) =
      ([Event.zipDetected name, Event.extractErr name eErr], none) := by
  simp [walkNode, h]

/-- walkNode on a file without the archive suffix is scanFile. -/
theorem walkNode_plain_nozip (hs : Finset String) (name : String)
    (d : Except String String) (eErr : String) (h : zipSuffix name = false) :
    walkNode hs (Node.plainFile name d eErr) = (scanFile hs name d, none) := by
  simp [walkNode, h]

/-! ### Helper lemmas about the loader -/

/-- The trimmed lines of exact byte length 32, in order — the lines the
loader keeps. -/
def validLines (lines : List String) : List String :=
  (lines.map trimSpace).filter (fun t => t.utf8ByteSize == 32)

/-- loadHashesFromFile only adds the valid lines, as a set union. -/
theorem loadHashesFromFile_eq_union (lines : List String) (hs : Finset String) :
    loadHashesFromFile lines hs = hs ∪ (validLines lines).toFinset := by
  induction lines generalizing hs with
  | nil => simp [loadHashesFromFile, validLines]
  | cons l ls ih =>
      by_cases h : (trimSpace l).utf8ByteSize = 32
      · have : loadHashesFromFile (l :: ls) hs
            = loadHashesFromFile ls (insert (trimSpace l) hs) := by
          simp [loadHashesFromFile, h]
        rw [this, ih]
        simp [validLines, List.filter_cons, h, Finset.union_insert, Finset.insert_union]
      · have : loadHashesFromFile (l :: ls) hs = loadHashesFromFile ls hs := by
          simp [loadHashesFromFile, h]
        rw [this, ih]
        simp [validLines, List.filter_cons, h]

/-- Membership in the loaded set, from the empty set. -/
theorem mem_loadHashesFromFile (lines : List String) (s : String) :
    s ∈ loadHashesFromFile lines ∅ ↔
      ∃ l ∈ lines, trimSpace l = s ∧ s.utf8ByteSize = 32 := by
  rw [loadHashesFromFile_eq_union]
  simp only [Finset.empty_union, List.mem_toFinset, validLines, List.mem_filter,
    List.mem_map, beq_iff_eq]
  constructor
  · rintro ⟨⟨l, hl, rfl⟩, hlen⟩
    exact ⟨l, hl, rfl, hlen⟩
  · rintro ⟨l, hl, rfl, hlen⟩
    exact ⟨⟨l, hl, rfl⟩, hlen⟩

/-! ### Claim theorems -/

/-- C1: for a readable file (computeMD5 returned a digest), scanFile's
verdict is Flagged exactly when the digest is in the known-hash set and
Clean exactly otherwise; likewise for the named-map scanFile variant of
src/unnamed/part_000, whose known set is the map's digest values. -/
theorem scanFile_flagged_iff (hs : Finset String) (pairs : List (String × String))
    (p d : String) :
    ((scanFile hs p (Except.ok d) = [Event.flagged p]) ↔ d ∈ hs)
    ∧ ((scanFile hs p (Except.ok d) = [Event.cleanOk p]) ↔ d ∉ hs)
    ∧ ((∃ n, scanFileNamed pairs p (Except.ok d) = [Event.flaggedNamed p n]) ↔
        d ∈ pairs.map Prod.snd)
    ∧ ((scanFileNamed pairs p (Except.ok d) = [Event.cleanOk p]) ↔
        d ∉ pairs.map Prod.snd) := by
  refine ⟨?_, ?_, ?_, ?_⟩
  · by_cases h : d ∈ hs <;> simp [scanFile, h]
  · by_cases h : d ∈ hs <;> simp [scanFile, h]
  · cases hf : pairs.find? (fun q => q.2 == d) with
    | none =>
        have hall := List.find?_eq_none.mp hf
        constructor
        · rintro ⟨n, hn⟩
          simp [scanFileNamed, hf] at hn
        · intro hmem
          rcases List.mem_map.mp hmem with ⟨q, hq, hqd⟩
          exact absurd (beq_iff_eq.mpr hqd) (by simpa using hall q hq)
    | some q =>
        have hq2 : q.2 = d := by simpa using List.find?_some hf
        have hqmem : q ∈ pairs := List.mem_of_find?_eq_some hf
        constructor
        · intro _
          exact List.mem_map.mpr ⟨q, hqmem, hq2⟩
        · intro _
          exact ⟨q.1, by simp [scanFileNamed, hf]⟩
  · cases hf : pairs.find? (fun q => q.2 == d) with
    | none =>
        have hall := List.find?_eq_none.mp hf
        have hres : scanFileNamed pairs p (Except.ok d) = [Event.cleanOk p] := by
          simp [scanFileNamed, hf]
        rw [hres]
        constructor
        · intro _ hmem
          rcases List.mem_map.mp hmem with ⟨q, hq, hqd⟩
          exact absurd (beq_iff_eq.mpr hqd) (by simpa using hall q hq)
        · intro _
          rfl
    | some q =>
        have hq2 : q.2 = d := by simpa using List.find?_some hf
        have hqmem : q ∈ pairs := List.mem_of_find?_eq_some hf
        have hres : scanFileNamed pairs p (Except.ok d) = [Event.flaggedNamed p q.1] := by
          simp [scanFileNamed, hf]
        rw [hres]
        constructor
        · intro hn
          simp at hn
        · intro hn
          exact absurd (List.mem_map.mpr ⟨q, hqmem, hq2⟩) hn

/-- C4: if enumerating the hash-list directory fails, main prints the
fatal load error and nothing else — in particular no file is ever hashed
or compared (no Flagged, Clean or Unreadable event occurs). -/
theorem fatal_enumeration_stops_scan (e : String) (root : Node) :
    mainRun (Except.error e) root = [Event.fatalLoadErr e]
    ∧ (∀ p, Event.flagged p ∉ mainRun (Except.error e) root)
    ∧ (∀ p, Event.cleanOk p ∉ mainRun (Except.error e) root)
    ∧ (∀ p er, Event.unreadable p er ∉ mainRun (Except.error e) root) := by
  refine ⟨rfl, ?_, ?_, ?_⟩ <;> intros <;> simp [mainRun, loadHashesFromDir]

/-- C5: a file whose hashing fails yields exactly one Unreadable event
carrying the underlying error, the walk's result stays nil, and every
sibling before and after it is scanned exactly as it would be on its own. -/
theorem unreadable_nonfatal (hs : Finset String) (pre post : List Node)
    (name err eErr : String) (h : zipSuffix name = false) :
    (walkList hs (pre ++ Node.plainFile name (Except.error err) eErr :: post)).1
      = (walkList hs pre).1 ++ Event.unreadable name err :: (walkList hs post).1
    ∧ (walkList hs (pre ++ Node.plainFile name (Except.error err) eErr :: post)).2 = none := by
  constructor
  · rw [walkList_append_fst, walkList_cons_fst, walkNode_plain_nozip hs name _ eErr h]
    simp [scanFile]
  · exact walkList_snd hs _

theorem unreadable_nonfatal_witness :
    zipSuffix "bad.txt" = false
    ∧ ((walkList (∅ : Finset String)
          ([Node.plainFile "a.txt" (Except.ok "aa") "e"] ++
            Node.plainFile "bad.txt" (Except.error "permission denied") "e" ::
            [Node.plainFile "c.txt" (Except.ok "cc") "e"])).1
        = (walkList (∅ : Finset String) [Node.plainFile "a.txt" (Except.ok "aa") "e"]).1 ++
          Event.unreadable "bad.txt" "permission denied" ::
          (walkList (∅ : Finset String) [Node.plainFile "c.txt" (Except.ok "cc") "e"]).1
      ∧ (walkList (∅ : Finset String)
          ([Node.plainFile "a.txt" (Except.ok "aa") "e"] ++
            Node.plainFile "bad.txt" (Except.error "permission denied") "e" ::
            [Node.plainFile "c.txt" (Except.ok "cc") "e"])).2 = none) :=
  ⟨by decide,
    unreadable_nonfatal ∅ [Node.plainFile "a.txt" (Except.ok "aa") "e"]
      [Node.plainFile "c.txt" (Except.ok "cc") "e"] "bad.txt" "permission denied" "e"
      (by decide)⟩

/-- C9: the IsDir branch of the walk callback precedes the archive-suffix
test, so a directory whose name ends in ".zip" is descended into as an
ordinary directory — never extracted — and contributes no event of its
own (an empty such directory produces no events at all). -/
theorem zip_named_dir_descends (hs : Finset String) (name : String) (cs : List Node)
    (_h : zipSuffix name = true) :
    walkNode hs (Node.dir name cs) = walkList hs cs
    ∧ (walkNode hs (Node.dir name [])).1 = [] :=
  ⟨by simp [walkNode], by simp [walkNode, walkList]⟩

theorem zip_named_dir_descends_witness :
    zipSuffix "archive_dir.zip" = true
    ∧ (walkNode (∅ : Finset String) (Node.dir "archive_dir.zip"
          [Node.plainFile "a.txt" (Except.ok "aa") "e"])
        = walkList (∅ : Finset String) [Node.plainFile "a.txt" (Except.ok "aa") "e"]
      ∧ (walkNode (∅ : Finset String) (Node.dir "archive_dir.zip" [])).1 = []) :=
  ⟨by decide,
    zip_named_dir_descends ∅ "archive_dir.zip"
      [Node.plainFile "a.txt" (Except.ok "aa") "e"] (by decide)⟩

/-- C10: the walk callback returns nil on every path, so for every tree
the walk reports success, scanDirectory is exactly the walk's event list,
and its trailing "Scan error" branch never fires. -/
theorem walk_always_succeeds (hs : Finset String) (root : Node) :
    (walkNode hs root).2 = none
    ∧ scanDirectory hs root = (walkNode hs root).1
    ∧ ∀ e, Event.scanErr e ∉ scanDirectory hs root := by
  have h1 := walkNode_snd hs root
  refine ⟨h1, ?_, ?_⟩
  · simp [scanDirectory, h1, scanErrEvents]
  · intro e
    have h2 := walkNode_no_scanErr hs root e
    simpa [scanDirectory, h1, scanErrEvents] using h2

/-- C7: a regular file with the (case-insensitive) ".zip" suffix is handed
to the expander: on success the walker emits "ZIP detected" and then
exactly the events of recursively scanning the scratch directory holding
the extracted entries — so each contained file receives its own verdict
and the archive itself receives none; on extraction failure the error is
reported and the walk continues with the next sibling. -/
theorem zip_expand_and_failure (hs : Finset String) (name tmp eErr : String)
    (d : Except String String) (entries post : List Node)
    (h : zipSuffix name = true) :
    walkNode hs (Node.zipFile name d entries)
      = (Event.zipDetected name :: scanDirectory hs (Node.dir tmp entries), none)
    ∧ (walkList hs (Node.plainFile name d eErr :: post)).1
      = Event.zipDetected name :: Event.extractErr name eErr :: (walkList hs post).1
    ∧ (walkList hs (Node.plainFile name d eErr :: post)).2 = none := by
  refine ⟨?_, ?_, ?_⟩
  · have h2 := walkList_snd hs entries
    have hdir : walkNode hs (Node.dir tmp entries) = walkList hs entries := by
      simp [walkNode]
    simp [walkNode, h, scanDirectory, hdir, h2, scanErrEvents]
  · rw [walkList_cons_fst, walkNode_plain_zipname hs name d eErr h]
    simp
  · exact walkList_snd hs _

theorem zip_expand_and_failure_witness :
    zipSuffix "sample.zip" = true
    ∧ (walkNode (∅ : Finset String)
          (Node.zipFile "sample.zip" (Except.ok "dd")
            [Node.plainFile "payload.txt" (Except.ok "aa") "e"])
        = (Event.zipDetected "sample.zip" ::
            scanDirectory (∅ : Finset String)
              (Node.dir "tmp" [Node.plainFile "payload.txt" (Except.ok "aa") "e"]), none)
      ∧ (walkList (∅ : Finset String)
          (Node.plainFile "sample.zip" (Except.ok "dd") "bad zip" ::
            [Node.plainFile "c.txt" (Except.ok "cc") "e"])).1
        = Event.zipDetected "sample.zip" :: Event.extractErr "sample.zip" "bad zip" ::
          (walkList (∅ : Finset String) [Node.plainFile "c.txt" (Except.ok "cc") "e"]).1
      ∧ (walkList (∅ : Finset String)
          (Node.plainFile "sample.zip" (Except.ok "dd") "bad zip" ::
            [Node.plainFile "c.txt" (Except.ok "cc") "e"])).2 = none) :=
  ⟨by decide,
    zip_expand_and_failure ∅ "sample.zip" "tmp" "bad zip" (Except.ok "dd")
      [Node.plainFile "payload.txt" (Except.ok "aa") "e"]
      [Node.plainFile "c.txt" (Except.ok "cc") "e"] (by decide)⟩

/-- C8: a file whose digest is known-bad is Flagged from arbitrarily deep
zip nesting: for every n, the payload wrapped in n archive levels is still
reached, hashed and Flagged — the walker has no depth limit. -/
theorem nested_zip_flagged (hs : Finset String) (d : String) (n : Nat) (h : d ∈ hs) :
    Event.flagged "payload.txt" ∈ (walkNode hs (nestedZip d n)).1 := by
  induction n with
  | zero =>
      have hz : zipSuffix "payload.txt" = false := by decide
      simp [nestedZip, walkNode, hz, scanFile, h]
  | succ m ih =>
      have hz : zipSuffix "inner.zip" = true := by decide
      have h2 := walkList_snd hs [nestedZip d m]
      have hfst : (walkList hs [nestedZip d m]).1 = (walkNode hs (nestedZip d m)).1 := by
        rw [walkList_cons_fst]
        simp [walkList]
      rw [nestedZip]
      simp only [walkNode, hz, if_true, h2, hfst, scanErrEvents, List.append_nil,
        List.mem_cons]
      exact Or.inr ih

theorem nested_zip_flagged_witness :
    ("44d88612fea8a8f36de82e1278abb02f" : String) ∈
        ({"44d88612fea8a8f36de82e1278abb02f"} : Finset String)
    ∧ Event.flagged "payload.txt" ∈
        (walkNode ({"44d88612fea8a8f36de82e1278abb02f"} : Finset String)
          (nestedZip "44d88612fea8a8f36de82e1278abb02f" 3)).1 :=
  ⟨by decide,
    nested_zip_flagged {"44d88612fea8a8f36de82e1278abb02f"}
      "44d88612fea8a8f36de82e1278abb02f" 3 (by decide)⟩

/-- C6: loading a second hash-list file into the set already holding the
first is idempotent on overlapping lines: the final size is the number of
*distinct* valid (trimmed, length-32) lines across both files, not the sum
of line counts. -/
theorem load_overlap_card (l1 l2 : List String) :
    (loadHashesFromFile l2 (loadHashesFromFile l1 ∅)).card
      = (((l1 ++ l2).map trimSpace).filter (fun t => t.utf8ByteSize == 32)).dedup.length := by
  rw [loadHashesFromFile_eq_union, loadHashesFromFile_eq_union]
  have hsplit : ((l1 ++ l2).map trimSpace).filter (fun t => t.utf8ByteSize == 32)
      = validLines l1 ++ validLines l2 := by
    simp [validLines, List.filter_append]
  rw [hsplit, ← List.card_toFinset, List.toFinset_append]
  simp

/-- C2 as stated is violated by the loader: a 32-character hash-list line
written in uppercase is inserted verbatim into the set, so the set holds a
digest string that is not in normalized lowercase hexadecimal form. -/
theorem upper_line_stored_cex :
    "44D88612FEA8A8F36DE82E1278ABB02F" ∈
        loadHashesFromFile ["44D88612FEA8A8F36DE82E1278ABB02F"] ∅
    ∧ isLowerHexStr "44D88612FEA8A8F36DE82E1278ABB02F" = false := by
  exact ⟨by decide, by decide⟩

/-- C2 amended: the Content Hasher side is normalized — every digest the
hex encoder produces is lowercase hexadecimal — while the loader inserts
trimmed lines verbatim, with no case normalization; consequently a stored
line that is not lowercase hexadecimal can never equal a computed digest. -/
theorem hasher_lowercase_loader_verbatim :
    (∀ bs : List Nat, (∀ b ∈ bs, b < 256) → isLowerHexStr (hexEncodeToString bs) = true)
    ∧ (∀ (lines : List String) (s : String),
        s ∈ loadHashesFromFile lines ∅ → ∃ l ∈ lines, trimSpace l = s)
    ∧ (∀ s : String, isLowerHexStr s = false →
        ∀ bs : List Nat, (∀ b ∈ bs, b < 256) → hexEncodeToString bs ≠ s) := by
  have hdig : ∀ i, i < 16 → isLowerHexChar (hexTable.getD i 'x') = true := by decide
  have h1 : ∀ bs : List Nat, (∀ b ∈ bs, b < 256) →
      isLowerHexStr (hexEncodeToString bs) = true := by
    intro bs hb
    have hrepr : isLowerHexStr (hexEncodeToString bs)
        = ((bs.map hexEncodeByte).flatten).all isLowerHexChar := rfl
    rw [hrepr, List.all_eq_true]
    intro c hc
    rcases List.mem_flatten.mp hc with ⟨l, hl, hcl⟩
    rcases List.mem_map.mp hl with ⟨b, hbmem, rfl⟩
    have hblt := hb b hbmem
    have hdiv : b / 16 < 16 := Nat.div_lt_of_lt_mul (by omega)
    have hmod : b % 16 < 16 := Nat.mod_lt _ (by omega)
    rcases (by simpa [hexEncodeByte] using hcl : c = hexTable.getD (b / 16) 'x'
        ∨ c = hexTable.getD (b % 16) 'x') with hceq | hceq
    · rw [hceq]
      exact hdig _ hdiv
    · rw [hceq]
      exact hdig _ hmod
  refine ⟨h1, ?_, ?_⟩
  · intro lines s hmem
    rcases (mem_loadHashesFromFile lines s).mp hmem with ⟨l, hl, heq, _⟩
    exact ⟨l, hl, heq⟩
  · intro s hlow bs hb heq
    have := h1 bs hb
    rw [heq, hlow] at this
    exact Bool.false_ne_true this

theorem hasher_lowercase_witness :
    isLowerHexStr (hexEncodeToString [68, 216, 134, 18, 254, 168, 171, 2, 47]) = true :=
  hasher_lowercase_loader_verbatim.1 [68, 216, 134, 18, 254, 168, 171, 2, 47] (by decide)

/-- C3 as stated (length in characters) is violated: this line of sixteen
two-byte characters has UTF-8 byte length 32, so the loader inserts it,
although its trimmed character length is 16, not 32. -/
theorem multibyte_line_cex :
    "éééééééééééééééé" ∈ loadHashesFromFile ["éééééééééééééééé"] ∅
    ∧ (trimSpace "éééééééééééééééé").length = 16
    ∧ (trimSpace "éééééééééééééééé").length ≠ 32 := by
  exact ⟨by decide, by decide, by decide⟩

/-- C3 amended: a line is inserted into the set, and a string appears in
the resulting set, exactly when it is the trimmed form of an input line
whose UTF-8 byte length (Go's `len`) is exactly 32 — which for the
ASCII-only lines of real hash lists is the same as 32 characters. -/
theorem load_mem_iff_bytes (lines : List String) (s : String) :
    s ∈ loadHashesFromFile lines ∅ ↔
      ∃ l ∈ lines, trimSpace l = s ∧ s.utf8ByteSize = 32 :=
  mem_loadHashesFromFile lines s

end Arfarf
